import Mathlib

/-!
Shallow embedding of the benchmarking and growth-model-fitting core of the
algo-lab repository (files `src/01_big-o-and-analysis/bench.py` and
`src/01_big-o-and-analysis/growth_models.py`), together with theorems
settling the specification claims about those two files.

Modelling conventions:
* Python floats are modelled as exact rationals (`ℚ`).  All of the code's
  arithmetic (sums, means, divisions, comparisons against the literal
  epsilons `1e-30` and `1e-12`) is carried out verbatim over `ℚ`.
* The only use of `math.sqrt` is in `_r2_and_rmse`, producing the `rmse`
  field of a `FitResult`.  A square root of a rational is in general
  irrational, so the embedded `FitResult` stores the radicand `ss_res / n`
  in the field `rmseSq`, and the value the Python code stores is recovered
  as `FitResult.rmse = Real.sqrt rmseSq`.  Because `Real.sqrt` is monotone
  and the radicand is a sum of squares divided by a length (hence
  non-negative), ordering results by `rmse` is the same as ordering them by
  `rmseSq`; the sort relations below therefore compare `rmseSq` where the
  Python code compares `rmse`, and theorems about the rmse value itself
  speak about `Real.sqrt (rmseSq : ℝ)`.
* The wall clock (`time.perf_counter` inside `_time_call`) is external to
  the program, so timed durations enter the embedding as oracles.
  Calibration sees `calib : ℕ → ℚ`, the total duration of one timed batch
  as a function of the loop count (the claims about the calibrator concern
  callables whose timing behaviour is a fixed deterministic function of the
  loop count), and the measurement phase sees `batch : ℕ → ℚ`, the total
  duration of the i-th recorded batch.  Warmup runs are unmeasured and have
  no observable effect in this timing model.
* Python exceptions (`raise ValueError`, `IndexError`) are modelled with
  `Except String`.  `bench.py` contains no raise statement at all, so its
  embedded functions are total.
* The fixed catalog `DEFAULT_MODELS` contains log-based basis functions
  whose values are irrational; the claims under study quantify over
  arbitrary models, so `Model.f` is an arbitrary function `ℚ → ℚ` and the
  catalog is passed explicitly.
-/

/-- The frozen dataclass `BenchConfig` from `bench.py`, with its default
field values.  The counts are Python ints (possibly negative, the code
clamps them); `min_time_per_repeat` is a float, modelled as `ℚ`;
`max_loops` is used only as a non-negative bound and is modelled as `ℕ`. -/
structure BenchConfig where
  warmup_runs : ℤ := 2
  repeats : ℤ := 7
  min_time_per_repeat : ℚ := 1/50
  max_loops : ℕ := 1000000
  collect_distribution : Bool := false

/-- The dataclass `BenchResult` from `bench.py` (the Measurement of the
spec): input size, representative per-call seconds, loop count, and the
optional per-repeat samples. -/
structure BenchResult where
  n : ℤ
  seconds : ℚ
  loops : ℕ
  samples : Option (List ℚ)

/-- The clamp `_choose_loops` applies after every measurement:
`if total <= 0: total = 1e-12`. -/
def clampPos (t : ℚ) : ℚ :=
  if t ≤ 0 then 1/10^12 else t

/-- The while loop of `_choose_loops`: as long as `total` is below the
threshold and `loops` is below `max_loops`, double `loops`, re-measure and
clamp.  `calib L` is the measured total duration of `L` invocations.  The
proof argument `hpos` records that `loops` starts at 1 and only doubles,
which is what makes the doubling terminate. -/
def chooseLoopsGo (calib : ℕ → ℚ) (minTime : ℚ) (maxLoops : ℕ)
    (loops : ℕ) (total : ℚ) (hpos : 0 < loops) : ℕ :=
  if total < minTime ∧ loops < maxLoops then
    chooseLoopsGo calib minTime maxLoops (loops * 2)
      (clampPos (calib (loops * 2))) (by omega)
  else
    loops
termination_by maxLoops - loops
decreasing_by omega

/-- `_choose_loops` from `bench.py`: measure one loop and clamp; if the
threshold is already met return 1; otherwise run the doubling loop and
return `min(loops, max_loops)`. -/
def choose_loops (calib : ℕ → ℚ) (cfg : BenchConfig) : ℕ :=
  let total := clampPos (calib 1)
  if cfg.min_time_per_repeat ≤ total then
    1
  else
    min (chooseLoopsGo calib cfg.min_time_per_repeat cfg.max_loops 1 total
      (by omega)) cfg.max_loops

/-- Modelled from the spec and the Python standard library documentation of
`statistics.median`, which `bench.py` calls but does not define: sort the
data; with an odd number of points return the middle one, with an even
number return the average of the two middle ones.  (Python raises on an
empty list; `benchmark_one_n` only ever passes a non-empty list, and the
embedding returns the irrelevant default 0 there.) -/
def median (l : List ℚ) : ℚ :=
  let s := l.mergeSort (fun a b => decide (a ≤ b))
  if l.length % 2 = 1 then
    s.getD (l.length / 2) 0
  else
    (s.getD (l.length / 2 - 1) 0 + s.getD (l.length / 2) 0) / 2

/-- `benchmark_one_n` from `bench.py`: calibrate the loop count, run
`max(1, cfg.repeats)` recorded batches, divide each batch total by the loop
count, and report the median per-call estimate.  `batch i` is the measured
total duration of recorded batch `i`. -/
def benchmark_one_n (calib : ℕ → ℚ) (batch : ℕ → ℚ) (n : ℤ)
    (cfg : BenchConfig) : BenchResult :=
  let loops := choose_loops calib cfg
  let per_call_samples :=
    (List.range (max 1 cfg.repeats).toNat).map
      (fun i => batch i / (loops : ℚ))
  { n := n
    seconds := median per_call_samples
    loops := loops
    samples := if cfg.collect_distribution then some per_call_samples else none }

/-- `benchmark_series` from `bench.py`: one `benchmark_one_n` per requested
size, in order.  The timing oracles may depend on the size. -/
def benchmark_series (calib : ℤ → ℕ → ℚ) (batch : ℤ → ℕ → ℚ)
    (n_values : List ℤ) (cfg : BenchConfig) : List BenchResult :=
  n_values.map (fun n => benchmark_one_n (calib n) (batch n) n cfg)

/-- The dataclass `Model` from `growth_models.py`: a named basis function. -/
structure Model where
  name : String
  f : ℚ → ℚ

/-- The model "1" (`f_const`) from `growth_models.py`. -/
def f_const : ℚ → ℚ := fun _ => 1

/-- The model "n" (`f_n`) from `growth_models.py`. -/
def f_n : ℚ → ℚ := fun n => n

/-- The model "n^2" (`f_n2`) from `growth_models.py`. -/
def f_n2 : ℚ → ℚ := fun n => n * n

/-- The dataclass `FitResult` from `growth_models.py`.  The Python field
`rmse` holds `math.sqrt(ss_res / n)`; the embedding stores the radicand
`rmseSq = ss_res / n`, the float being `Real.sqrt (rmseSq : ℝ)`. -/
structure FitResult where
  model : Model
  a : ℚ
  b : ℚ
  r2 : ℚ
  rmseSq : ℚ

/-- `_ols_fit_affine` from `growth_models.py`: validate, compute means and
the centred sums `sxx`, `sxy` by a single pass over `zip(xs, ys)`, fall
back to the constant fit when `abs(sxx) < 1e-30`, otherwise return the
least-squares slope and intercept. -/
def _ols_fit_affine (xs ys : List ℚ) : Except String (ℚ × ℚ) :=
  if xs.length ≠ ys.length then
    .error "xs and ys must have the same length"
  else if xs.length < 2 then
    .error "Need at least 2 points to fit a line"
  else
    let n : ℚ := xs.length
    let mean_x := xs.sum / n
    let mean_y := ys.sum / n
    let sxx := ((xs.zip ys).map
      (fun p => (p.1 - mean_x) * (p.1 - mean_x))).sum
    let sxy := ((xs.zip ys).map
      (fun p => (p.1 - mean_x) * (p.2 - mean_y))).sum
    if |sxx| < 1/10^30 then
      .ok (0, mean_y)
    else
      let a := sxy / sxx
      .ok (a, mean_y - a * mean_x)

/-- `_r2_and_rmse` from `growth_models.py`: accumulate `ss_res` and
`ss_tot` over `zip(xs, ys)`, define R² as `1 - ss_res/ss_tot` unless
`abs(ss_tot) < 1e-30`, in which case R² is 1 when `ss_res < 1e-30` and 0
otherwise.  The second component is the radicand of the returned rmse. -/
def _r2_and_rmse (xs ys : List ℚ) (a b : ℚ) : ℚ × ℚ :=
  let n : ℚ := xs.length
  let mean_y := ys.sum / n
  let ss_res := ((xs.zip ys).map
    (fun p => (p.2 - (a * p.1 + b)) * (p.2 - (a * p.1 + b)))).sum
  let ss_tot := ((xs.zip ys).map
    (fun p => (p.2 - mean_y) * (p.2 - mean_y))).sum
  let r2 := if |ss_tot| < 1/10^30 then
      (if ss_res < 1/10^30 then 1 else 0)
    else
      1 - ss_res / ss_tot
  (r2, ss_res / n)

/-- `fit_model` from `growth_models.py`: validate, transform the sizes
through the model's basis function, fit, and score. -/
def fit_model (n_values : List ℤ) (y_values : List ℚ) (model : Model) :
    Except String FitResult :=
  if n_values.length ≠ y_values.length then
    .error "n_values and y_values must have the same length"
  else if n_values.length < 2 then
    .error "Need at least 2 points to fit a model"
  else
    let xs := n_values.map (fun n : ℤ => model.f (n : ℚ))
    let ys := y_values
    match _ols_fit_affine xs ys with
    | .error e => .error e
    | .ok ab =>
      let rr := _r2_and_rmse xs ys ab.1 ab.2
      .ok { model := model, a := ab.1, b := ab.2, r2 := rr.1, rmseSq := rr.2 }

/-- The comparison realised by the first (immediately overridden) sort in
`fit_all_models`: a stable descending sort on the key `(r2, -rmse)`, i.e.
`x` may precede `y` exactly when the key of `y` is lexicographically at
most the key of `x`.  Comparing `-rmseSq` orders exactly like comparing
`-rmse`, since squaring is monotone on the non-negative rmse values. -/
def leFirstSortKey (x y : FitResult) : Bool :=
  decide (y.r2 < x.r2 ∨ (y.r2 = x.r2 ∧ -y.rmseSq ≤ -x.rmseSq))

/-- The comparison realised by the second, authoritative sort in
`fit_all_models`: a stable ascending sort on the key `(-r2, rmse)`.
Comparing `rmseSq` orders exactly like comparing `rmse`. -/
def leSecondSortKey (x y : FitResult) : Bool :=
  decide (-x.r2 < -y.r2 ∨ (-x.r2 = -y.r2 ∧ x.rmseSq ≤ y.rmseSq))

/-- `fit_all_models` from `growth_models.py`: fit every model, then sort
twice exactly as the source does (the first sort is immediately re-sorted
"for clarity" by the second; both are stable, as is Python's `list.sort`). -/
def fit_all_models (n_values : List ℤ) (y_values : List ℚ)
    (models : List Model) : Except String (List FitResult) :=
  match models.mapM (fit_model n_values y_values) with
  | .error e => .error e
  | .ok results =>
    let results1 := results.mergeSort leFirstSortKey
    let results2 := results1.mergeSort leSecondSortKey
    .ok results2

/-- `best_model` from `growth_models.py`: index 0 of `fit_all_models`
(Python raises `IndexError` on an empty result list). -/
def best_model (n_values : List ℤ) (y_values : List ℚ)
    (models : List Model) : Except String FitResult :=
  match fit_all_models n_values y_values models with
  | .error e => .error e
  | .ok [] => .error "list index out of range"
  | .ok (r :: _) => .ok r

/-- Modelled from the spec's words (growth-model fitting, §4.6 and §4.7 of
the spec): with means over the transformed feature `x_i = f(n_i)` and the
durations, slope `a = Sxy/Sxx` and intercept `b = ȳ − a·x̄`, except `a = 0`,
`b = ȳ` when `|Sxx|` is below a small epsilon; `r2 = 1 − ss_res/ss_tot`
unless `ss_tot` is near zero, in which case `r2` is 1 if `ss_res` is also
near zero and 0 otherwise; and an rmse whose square is `ss_res/n`.  Written
for comparison with `fit_model`. -/
def fit_model_spec (nv : List ℤ) (yv : List ℚ) (model : Model) : FitResult :=
  let xs := nv.map (fun n : ℤ => model.f (n : ℚ))
  let nn : ℚ := nv.length
  let xbar := xs.sum / nn
  let ybar := yv.sum / nn
  let sxx := (xs.map (fun x => (x - xbar) * (x - xbar))).sum
  let sxy := ((xs.zip yv).map (fun p => (p.1 - xbar) * (p.2 - ybar))).sum
  let a := if |sxx| < 1/10^30 then 0 else sxy / sxx
  let b := if |sxx| < 1/10^30 then ybar else ybar - (sxy / sxx) * xbar
  let ssRes := ((xs.zip yv).map
    (fun p => (p.2 - (a * p.1 + b)) * (p.2 - (a * p.1 + b)))).sum
  let ssTot := (yv.map (fun y => (y - ybar) * (y - ybar))).sum
  let r2 := if |ssTot| < 1/10^30 then
      (if ssRes < 1/10^30 then 1 else 0)
    else
      1 - ssRes / ssTot
  { model := model, a := a, b := b, r2 := r2, rmseSq := ssRes / nn }

/-! Lemmas about the loop calibrator. -/

/-- The doubling loop never shrinks the loop count. -/
theorem chooseLoopsGo_ge (calib : ℕ → ℚ) (minTime : ℚ) (maxLoops : ℕ)
    (loops : ℕ) (total : ℚ) (hpos : 0 < loops) :
    loops ≤ chooseLoopsGo calib minTime maxLoops loops total hpos := by
  rw [chooseLoopsGo]
  split
  · exact le_trans (by omega)
      (chooseLoopsGo_ge calib minTime maxLoops (loops * 2) _ (by omega))
  · exact le_refl loops
termination_by maxLoops - loops
decreasing_by omega

/-- Raising the time threshold can only make the doubling loop run longer. -/
theorem chooseLoopsGo_mono (calib : ℕ → ℚ) (t1 t2 : ℚ) (h12 : t1 ≤ t2)
    (maxLoops : ℕ) (loops : ℕ) (total : ℚ) (hpos : 0 < loops) :
    chooseLoopsGo calib t1 maxLoops loops total hpos ≤
      chooseLoopsGo calib t2 maxLoops loops total hpos := by
  conv_lhs => rw [chooseLoopsGo]
  conv_rhs => rw [chooseLoopsGo]
  by_cases c1 : total < t1 ∧ loops < maxLoops
  · have c2 : total < t2 ∧ loops < maxLoops := ⟨lt_of_lt_of_le c1.1 h12, c1.2⟩
    rw [if_pos c1, if_pos c2]
    exact chooseLoopsGo_mono calib t1 t2 h12 maxLoops (loops * 2) _ (by omega)
  · rw [if_neg c1]
    by_cases c2 : total < t2 ∧ loops < maxLoops
    · rw [if_pos c2]
      exact le_trans (by omega)
        (chooseLoopsGo_ge calib t2 maxLoops (loops * 2) _ (by omega))
    · rw [if_neg c2]
termination_by maxLoops - loops
decreasing_by omega

/-- `clampPos` is idempotent. -/
theorem clampPos_idem (t : ℚ) : clampPos (clampPos t) = clampPos t := by
  unfold clampPos
  split
  · norm_num
  · rfl

/-- The doubling loop only ever compares clamped durations, so it cannot
tell the raw oracle from its clamped version. -/
theorem chooseLoopsGo_clamp (calib : ℕ → ℚ) (minTime : ℚ) (maxLoops : ℕ)
    (loops : ℕ) (total : ℚ) (hpos : 0 < loops) :
    chooseLoopsGo (fun L => clampPos (calib L)) minTime maxLoops loops total hpos =
      chooseLoopsGo calib minTime maxLoops loops total hpos := by
  conv_lhs => rw [chooseLoopsGo]
  conv_rhs => rw [chooseLoopsGo]
  split
  · rw [clampPos_idem]
    exact chooseLoopsGo_clamp calib minTime maxLoops (loops * 2) _ (by omega)
  · rfl
termination_by maxLoops - loops
decreasing_by omega

/-- Characterisation of the doubling loop on powers of two: starting at
`2^j` with every clamped measurement below the threshold strictly before
index `k`, the loop stops exactly at `2^k`, the first power of two whose
clamped measurement meets the threshold, provided `2^k` does not exceed
the bound. -/
theorem chooseLoopsGo_pow (calib : ℕ → ℚ) (minTime : ℚ) (maxLoops : ℕ)
    (j k : ℕ) (hjk : j ≤ k)
    (hlow : ∀ i, j ≤ i → i < k → clampPos (calib (2 ^ i)) < minTime)
    (hhi : minTime ≤ clampPos (calib (2 ^ k)))
    (hbound : 2 ^ k ≤ maxLoops)
    (loops : ℕ) (hl : loops = 2 ^ j) (hp : 0 < loops) :
    chooseLoopsGo calib minTime maxLoops loops (clampPos (calib loops)) hp
      = 2 ^ k := by
  rw [chooseLoopsGo]
  rcases eq_or_lt_of_le hjk with heq | hlt
  · subst heq
    rw [if_neg]
    · exact hl
    · intro hc
      rw [hl] at hc
      exact absurd hhi (not_le.mpr hc.1)
  · rw [if_pos]
    · exact chooseLoopsGo_pow calib minTime maxLoops (j + 1) k hlt
        (fun i h1 h2 => hlow i (by omega) h2) hhi hbound (loops * 2)
        (by rw [hl]; ring) (by omega)
    · constructor
      · rw [hl]
        exact hlow j (le_refl j) hlt
      · calc loops = 2 ^ j := hl
          _ < 2 ^ k := Nat.pow_lt_pow_right (by omega) hlt
          _ ≤ maxLoops := hbound
termination_by k - j
decreasing_by omega

/-- When the clamped first measurement already meets the threshold, the
calibrator stops at 1 loop. -/
theorem choose_loops_fast (calib : ℕ → ℚ) (cfg : BenchConfig)
    (h : cfg.min_time_per_repeat ≤ clampPos (calib 1)) :
    choose_loops calib cfg = 1 := by
  simp [choose_loops, h]

/-- When the clamped first measurement is below the threshold, the
calibrator runs the doubling loop and caps the answer at `max_loops`. -/
theorem choose_loops_slow (calib : ℕ → ℚ) (cfg : BenchConfig)
    (h : ¬ cfg.min_time_per_repeat ≤ clampPos (calib 1)) :
    choose_loops calib cfg =
      min (chooseLoopsGo calib cfg.min_time_per_repeat cfg.max_loops 1
        (clampPos (calib 1)) (by omega)) cfg.max_loops := by
  simp [choose_loops, h]

/-- As long as `max_loops` is at least 1, the calibrated loop count lies
between 1 and `max_loops`. -/
theorem choose_loops_bounds (calib : ℕ → ℚ) (cfg : BenchConfig)
    (hmax : 1 ≤ cfg.max_loops) :
    1 ≤ choose_loops calib cfg ∧ choose_loops calib cfg ≤ cfg.max_loops := by
  by_cases h : cfg.min_time_per_repeat ≤ clampPos (calib 1)
  · rw [choose_loops_fast calib cfg h]
    exact ⟨le_refl 1, hmax⟩
  · rw [choose_loops_slow calib cfg h]
    constructor
    · exact le_min (chooseLoopsGo_ge calib _ _ 1 _ (by omega)) hmax
    · exact min_le_right _ _

/-- C3: for a callable whose timing is a fixed deterministic function of
the loop count, `_choose_loops` returns the smallest power-of-two loop
count whose clamped measured total meets `min_time_per_repeat` (within the
`max_loops` bound); if the first single-call measurement already meets the
threshold it returns exactly 1; and every measured duration is clamped to
a small positive epsilon before the threshold comparison, so the raw
oracle and its clamped version calibrate identically. -/
theorem claim_C3 (calib : ℕ → ℚ) (cfg : BenchConfig) :
    (cfg.min_time_per_repeat ≤ clampPos (calib 1) →
      choose_loops calib cfg = 1) ∧
    (∀ k : ℕ,
      (∀ i, i < k → clampPos (calib (2 ^ i)) < cfg.min_time_per_repeat) →
      cfg.min_time_per_repeat ≤ clampPos (calib (2 ^ k)) →
      2 ^ k ≤ cfg.max_loops →
      choose_loops calib cfg = 2 ^ k) ∧
    choose_loops (fun L => clampPos (calib L)) cfg = choose_loops calib cfg := by
  refine ⟨choose_loops_fast calib cfg, ?_, ?_⟩
  · intro k hlow hhi hbound
    rcases Nat.eq_zero_or_pos k with hk | hk
    · subst hk
      rw [pow_zero] at hhi ⊢
      exact choose_loops_fast calib cfg hhi
    · have h1 : clampPos (calib 1) < cfg.min_time_per_repeat := by
        have := hlow 0 hk
        rwa [pow_zero] at this
      rw [choose_loops_slow calib cfg (not_le.mpr h1)]
      have hgo := chooseLoopsGo_pow calib cfg.min_time_per_repeat
        cfg.max_loops 0 k (by omega) (fun i _ hik => hlow i hik) hhi hbound
        1 (by norm_num) (by omega)
      rw [hgo]
      exact Nat.min_eq_left hbound
  · by_cases h : cfg.min_time_per_repeat ≤ clampPos (calib 1)
    · have h2 : cfg.min_time_per_repeat ≤ clampPos (clampPos (calib 1)) := by
        rwa [clampPos_idem]
      rw [choose_loops_fast calib cfg h,
        choose_loops_fast (fun L => clampPos (calib L)) cfg h2]
    · have h2 : ¬ cfg.min_time_per_repeat ≤ clampPos (clampPos (calib 1)) := by
        rwa [clampPos_idem]
      rw [choose_loops_slow calib cfg h,
        choose_loops_slow (fun L => clampPos (calib L)) cfg h2,
        clampPos_idem]
      rw [chooseLoopsGo_clamp]

/-- Witness for C3: a callable costing exactly 1/100 second per loop with
the default 1/50-second threshold calibrates to 2 loops (the smallest
power of two whose total meets the threshold), and a 1-second callable
calibrates to 1 loop. -/
theorem claim_C3_witness :
    choose_loops (fun L => (L : ℚ) / 100) {} = 2 ∧
    choose_loops (fun _ => 1) {} = 1 := by
  constructor
  · have h := (claim_C3 (fun L => (L : ℚ) / 100) {}).2.1 1
    rw [pow_one] at h
    apply h
    · intro i hi
      have : i = 0 := by omega
      subst this
      norm_num [clampPos]
    · norm_num [clampPos]
    · norm_num
  · exact (claim_C3 (fun _ => 1) {}).1 (by norm_num [clampPos])

/-- C5: `benchmark_series` returns exactly one measurement per requested
size, in input order, each carrying the corresponding size in its `n`
field. -/
theorem claim_C5 (calib batch : ℤ → ℕ → ℚ) (n_values : List ℤ)
    (cfg : BenchConfig) :
    (benchmark_series calib batch n_values cfg).length = n_values.length ∧
    (benchmark_series calib batch n_values cfg).map (fun r => r.n)
      = n_values := by
  constructor
  · simp [benchmark_series]
  · rw [benchmark_series, List.map_map]
    exact List.map_id n_values

/-- Counterexample to C7: `benchmark_series` performs no validation of the
requested sizes.  Called with `sizes = [0]` it raises nothing (there is no
raise statement anywhere in its call chain) and returns a normal
one-element result list whose measurement has `n = 0`. -/
theorem claim_C7_counterexample :
    (benchmark_series (fun _ _ => 1) (fun _ _ => 1) [0] {}).length = 1 ∧
    (benchmark_series (fun _ _ => 1) (fun _ _ => 1) [0] {}).map
      (fun r => r.n) = [0] := by
  constructor
  · simp [benchmark_series]
  · rw [benchmark_series, List.map_map]
    exact List.map_id [0]

/-- C7 as amended: `benchmark_series` does not validate sizes.  Even when
the size list contains a non-positive entry it raises no error and returns
one measurement per size, in input order. -/
theorem claim_C7_amended (calib batch : ℤ → ℕ → ℚ) (sizes : List ℤ)
    (cfg : BenchConfig) (_hbad : ∃ s ∈ sizes, s ≤ 0) :
    (benchmark_series calib batch sizes cfg).length = sizes.length ∧
    (benchmark_series calib batch sizes cfg).map (fun r => r.n) = sizes := by
  constructor
  · simp [benchmark_series]
  · rw [benchmark_series, List.map_map]
    exact List.map_id sizes

/-- Witness for the amended C7, at `sizes = [0, 3]`. -/
theorem claim_C7_amended_witness :
    (∃ s ∈ ([0, 3] : List ℤ), s ≤ 0) ∧
    ((benchmark_series (fun _ _ => 2) (fun _ _ => 2) [0, 3] {}).length = 2 ∧
     (benchmark_series (fun _ _ => 2) (fun _ _ => 2) [0, 3] {}).map
       (fun r => r.n) = [0, 3]) := by
  have hbad : ∃ s ∈ ([0, 3] : List ℤ), s ≤ 0 := ⟨0, by simp, by norm_num⟩
  exact ⟨hbad, claim_C7_amended (fun _ _ => 2) (fun _ _ => 2) [0, 3] {} hbad⟩

/-- Counterexample to C8: with `max_loops = 0` (a Config the data model
does not rule out) the calibrator returns `min(1, 0) = 0`, so the recorded
loop count of the measurement is 0, not at least 1. -/
theorem claim_C8_counterexample :
    (benchmark_one_n (fun _ => 0) (fun _ => 1) 1
      ⟨2, 7, 1/50, 0, false⟩).loops = 0 ∧
    ¬ 1 ≤ (benchmark_one_n (fun _ => 0) (fun _ => 1) 1
      ⟨2, 7, 1/50, 0, false⟩).loops := by
  have h : choose_loops (fun _ => (0 : ℚ)) ⟨2, 7, 1/50, 0, false⟩ = 0 := by
    rw [choose_loops_slow _ _ (by norm_num [clampPos])]
    exact Nat.min_zero _
  constructor
  · exact h
  · rw [show (benchmark_one_n (fun _ => 0) (fun _ => 1) 1
      ⟨2, 7, 1/50, 0, false⟩).loops
      = choose_loops (fun _ => (0 : ℚ)) ⟨2, 7, 1/50, 0, false⟩ from rfl, h]
    omega

/-- C8 as amended: for every Config whose `max_loops` is at least 1, the
loop count the calibrator chooses and records in the returned measurement
is between 1 and `max_loops`, so dividing each batch total by it never
divides by zero. -/
theorem claim_C8_amended (calib batch : ℕ → ℚ) (n : ℤ) (cfg : BenchConfig)
    (hmax : 1 ≤ cfg.max_loops) :
    1 ≤ (benchmark_one_n calib batch n cfg).loops ∧
    (benchmark_one_n calib batch n cfg).loops ≤ cfg.max_loops := by
  exact choose_loops_bounds calib cfg hmax

/-- Witness for the amended C8, at the default Config. -/
theorem claim_C8_amended_witness :
    1 ≤ ({} : BenchConfig).max_loops ∧
    (1 ≤ (benchmark_one_n (fun _ => 1) (fun _ => 1) 5 {}).loops ∧
     (benchmark_one_n (fun _ => 1) (fun _ => 1) 5 {}).loops
       ≤ ({} : BenchConfig).max_loops) := by
  refine ⟨by norm_num, claim_C8_amended (fun _ => 1) (fun _ => 1) 5 {} (by norm_num)⟩

/-- Counterexample to C10: with `max_loops = 0` the calibrator is not
monotone in `min_time_per_repeat`.  For a callable measuring 0 (clamped to
the epsilon 1/10^12), raising the threshold from 1/10^12 to 1 makes the
chosen loop count drop from 1 to 0. -/
theorem claim_C10_counterexample :
    (1/10^12 : ℚ) ≤ 1 ∧
    choose_loops (fun _ => 0) ⟨2, 7, 1/10^12, 0, false⟩ = 1 ∧
    choose_loops (fun _ => 0) ⟨2, 7, 1, 0, false⟩ = 0 := by
  refine ⟨by norm_num, ?_, ?_⟩
  · exact choose_loops_fast _ _ (by norm_num [clampPos])
  · rw [choose_loops_slow _ _ (by norm_num [clampPos])]
    exact Nat.min_zero _

/-- C10 as amended: for a fixed deterministic callable and any Config with
`max_loops` at least 1, the calibrated loop count is non-decreasing in
`min_time_per_repeat`, all other Config fields held equal. -/
theorem claim_C10_amended (calib : ℕ → ℚ) (cfg : BenchConfig) (t1 t2 : ℚ)
    (hmax : 1 ≤ cfg.max_loops) (h12 : t1 ≤ t2) :
    choose_loops calib { cfg with min_time_per_repeat := t1 } ≤
      choose_loops calib { cfg with min_time_per_repeat := t2 } := by
  by_cases h2 : t2 ≤ clampPos (calib 1)
  · have h1 : t1 ≤ clampPos (calib 1) := le_trans h12 h2
    rw [choose_loops_fast calib _ h1, choose_loops_fast calib _ h2]
  · by_cases h1 : t1 ≤ clampPos (calib 1)
    · rw [choose_loops_fast calib _ h1, choose_loops_slow calib _ h2]
      exact le_min (chooseLoopsGo_ge calib _ _ 1 _ (by omega)) hmax
    · rw [choose_loops_slow calib _ h1, choose_loops_slow calib _ h2]
      exact min_le_min
        (chooseLoopsGo_mono calib t1 t2 h12 cfg.max_loops 1 _ (by omega))
        (le_refl cfg.max_loops)

/-- Witness for the amended C10, at thresholds 1/100 and 1/50 over the
default Config. -/
theorem claim_C10_amended_witness :
    1 ≤ ({} : BenchConfig).max_loops ∧ (1/100 : ℚ) ≤ 1/50 ∧
    choose_loops (fun _ => 1) { ({} : BenchConfig) with
      min_time_per_repeat := 1/100 } ≤
    choose_loops (fun _ => 1) { ({} : BenchConfig) with
      min_time_per_repeat := 1/50 } := by
  exact ⟨by norm_num, by norm_num,
    claim_C10_amended (fun _ => 1) {} (1/100) (1/50) (by norm_num) (by norm_num)⟩

/-- The median of five values of which four are equal and the fifth is at
least as large picks the repeated value: a single inflated outlier cannot
move it. -/
theorem median_five (x y : ℚ) (hxy : x ≤ y) : median [x, x, y, x, x] = x := by
  have hperm : ([x, x, y, x, x] : List ℚ).Perm [x, x, x, x, y] := by
    refine List.Perm.cons x (List.Perm.cons x ?_)
    exact (List.Perm.swap x y [x]).trans (List.Perm.cons x (List.Perm.swap x y []))
  have hsorted2 : List.Sorted (fun a b : ℚ => a ≤ b) [x, x, x, x, y] := by
    simp [List.sorted_cons, hxy]
  have hsorted1 : List.Sorted (fun a b : ℚ => a ≤ b)
      (List.mergeSort [x, x, y, x, x] (fun a b => decide (a ≤ b))) := by
    have hp := @List.sorted_mergeSort ℚ (fun a b => decide (a ≤ b))
      (fun a b c hab hbc => by
        simp only [decide_eq_true_iff] at *
        exact le_trans hab hbc)
      (fun a b => by
        simp only [Bool.or_eq_true, decide_eq_true_iff]
        exact le_total a b)
      [x, x, y, x, x]
    exact hp.imp (fun h => of_decide_eq_true h)
  have heq : List.mergeSort [x, x, y, x, x] (fun a b => decide (a ≤ b))
      = [x, x, x, x, y] :=
    List.eq_of_perm_of_sorted ((List.mergeSort_perm _ _).trans hperm)
      hsorted1 hsorted2
  rw [median]
  simp [heq]

/-- C4: the seconds field of a measurement is the median of the per-call
estimates (each recorded batch total divided by the calibrated loop count)
over `max(1, repeats)` batches; the effective repeat count is clamped to
at least 1; and with `repeats = 5` and one batch inflated by any factor of
at least 1, the reported seconds equal the uninflated per-call estimate,
unaffected by the single outlier. -/
theorem claim_C4 (calib batch : ℕ → ℚ) (n : ℤ) (cfg : BenchConfig) :
    ((benchmark_one_n calib batch n cfg).seconds =
      median ((List.range (max 1 cfg.repeats).toNat).map
        (fun i => batch i / (choose_loops calib cfg : ℚ))) ∧
     ((List.range (max 1 cfg.repeats).toNat).map
        (fun i => batch i / (choose_loops calib cfg : ℚ))).length
        = (max 1 cfg.repeats).toNat ∧
     1 ≤ (max 1 cfg.repeats).toNat) ∧
    (∀ t c : ℚ, cfg.repeats = 5 → 0 ≤ t → 1 ≤ c →
      (∀ i, i ≠ 2 → batch i = t) → batch 2 = c * t →
      (benchmark_one_n calib batch n cfg).seconds
        = t / (choose_loops calib cfg : ℚ)) := by
  constructor
  · refine ⟨rfl, by simp, ?_⟩
    have := le_max_left (1 : ℤ) cfg.repeats
    omega
  · intro t c hrep h0t h1c hb hb2
    show median ((List.range (max 1 cfg.repeats).toNat).map
        (fun i => batch i / (choose_loops calib cfg : ℚ)))
      = t / (choose_loops calib cfg : ℚ)
    rw [hrep]
    have hfive : (max (1 : ℤ) 5).toNat = 5 := rfl
    rw [hfive]
    have hrange : List.range 5 = [0, 1, 2, 3, 4] := by decide
    rw [hrange]
    simp only [List.map_cons, List.map_nil]
    rw [hb 0 (by omega), hb 1 (by omega), hb2, hb 3 (by omega),
      hb 4 (by omega)]
    rcases eq_or_lt_of_le
        (Nat.cast_nonneg (choose_loops calib cfg) : (0 : ℚ) ≤ _) with h0 | hpos
    · rw [← h0]
      simp only [div_zero]
      exact median_five 0 0 (le_refl 0)
    · exact median_five _ _
        ((div_le_div_iff_of_pos_right hpos).mpr (le_mul_of_one_le_left h0t h1c))

/-- Witness for C4: with 5 repeats, four batches of total 1 and one batch
inflated a hundredfold, the reported seconds are the uninflated per-call
estimate. -/
theorem claim_C4_witness :
    (benchmark_one_n (fun _ => 1) (fun i => if i = 2 then 100 else 1) 7
      ⟨2, 5, 1/50, 1000000, false⟩).seconds
      = 1 / (choose_loops (fun _ => 1) ⟨2, 5, 1/50, 1000000, false⟩ : ℚ) := by
  exact (claim_C4 (fun _ => 1) (fun i => if i = 2 then 100 else 1) 7
      ⟨2, 5, 1/50, 1000000, false⟩).2 1 100 rfl (by norm_num) (by norm_num)
    (fun i hi => by simp [hi]) (by norm_num)

/-! Lemmas about the least-squares fitter. -/

/-- A sum over the first components of a zip of equal-length lists is a sum
over the first list. -/
theorem sum_sq_fst_zip (xs ys : List ℚ) (h : xs.length = ys.length) (m : ℚ) :
    ((xs.zip ys).map (fun p => (p.1 - m) * (p.1 - m))).sum
      = (xs.map (fun x => (x - m) * (x - m))).sum := by
  induction xs generalizing ys with
  | nil => simp
  | cons x xs ih =>
    cases ys with
    | nil => simp at h
    | cons y ys =>
      simp only [List.zip_cons_cons, List.map_cons, List.sum_cons]
      rw [ih ys (by simpa using h)]

/-- A sum over the second components of a zip of equal-length lists is a
sum over the second list. -/
theorem sum_sq_snd_zip (xs ys : List ℚ) (h : xs.length = ys.length) (m : ℚ) :
    ((xs.zip ys).map (fun p => (p.2 - m) * (p.2 - m))).sum
      = (ys.map (fun y => (y - m) * (y - m))).sum := by
  induction xs generalizing ys with
  | nil =>
    cases ys with
    | nil => simp
    | cons y ys => simp at h
  | cons x xs ih =>
    cases ys with
    | nil => simp at h
    | cons y ys =>
      simp only [List.zip_cons_cons, List.map_cons, List.sum_cons]
      rw [ih ys (by simpa using h)]

/-- When a fallible map succeeds elementwise and each output remembers its
input through `g`, `mapM` succeeds and `g` recovers the input list. -/
theorem mapM_ok {α β : Type} (f : α → Except String β) (g : β → α) :
    ∀ l : List α, (∀ a ∈ l, ∃ b, f a = .ok b ∧ g b = a) →
      ∃ bs, l.mapM f = .ok bs ∧ bs.map g = l := by
  intro l
  induction l with
  | nil => exact fun _ => ⟨[], rfl, rfl⟩
  | cons a l ih =>
    intro h
    obtain ⟨b, hfb, hgb⟩ := h a (List.mem_cons_self a l)
    obtain ⟨bs, hbs, hmap⟩ := ih (fun x hx => h x (List.mem_cons_of_mem a hx))
    refine ⟨b :: bs, ?_, by simp [hmap, hgb]⟩
    rw [List.mapM_cons, hfb, hbs]
    rfl

/-- On validated input, `_ols_fit_affine` always succeeds. -/
theorem ols_fit_affine_ok (xs ys : List ℚ) (h1 : xs.length = ys.length)
    (h2 : 2 ≤ xs.length) :
    ∃ ab, _ols_fit_affine xs ys = .ok ab := by
  unfold _ols_fit_affine
  rw [if_neg (by omega), if_neg (by omega)]
  dsimp only
  split
  · exact ⟨_, rfl⟩
  · exact ⟨_, rfl⟩

/-- On validated input, `fit_model` always succeeds and tags the result
with the model it was given. -/
theorem fit_model_ok (nv : List ℤ) (yv : List ℚ) (m : Model)
    (h1 : nv.length = yv.length) (h2 : 2 ≤ nv.length) :
    ∃ fr, fit_model nv yv m = .ok fr ∧ fr.model = m := by
  obtain ⟨ab, hab⟩ := ols_fit_affine_ok (nv.map (fun n : ℤ => m.f (n : ℚ))) yv
    (by rw [List.length_map]; exact h1) (by rw [List.length_map]; exact h2)
  unfold fit_model
  rw [if_neg (by omega), if_neg (by omega)]
  dsimp only
  rw [hab]
  exact ⟨_, rfl, rfl⟩

/-- C6: `fit_model` fails with a validation error exactly when fewer than
2 points are supplied or the two sequences have mismatched lengths; on
every equal-length input of at least 2 points it returns a result,
degenerate near-zero-variance data included. -/
theorem claim_C6 (nv : List ℤ) (yv : List ℚ) (m : Model) :
    (∃ fr, fit_model nv yv m = .ok fr) ↔
      (nv.length = yv.length ∧ 2 ≤ nv.length) := by
  constructor
  · rintro ⟨fr, hfr⟩
    unfold fit_model at hfr
    by_cases c1 : nv.length ≠ yv.length
    · rw [if_pos c1] at hfr
      exact absurd hfr (by simp)
    · rw [if_neg c1] at hfr
      by_cases c2 : nv.length < 2
      · rw [if_pos c2] at hfr
        exact absurd hfr (by simp)
      · exact ⟨not_ne_iff.mp c1, by omega⟩
  · rintro ⟨h1, h2⟩
    obtain ⟨fr, hfr, _⟩ := fit_model_ok nv yv m h1 h2
    exact ⟨fr, hfr⟩

/-- On validated input, `fit_model` computes exactly the value described
by the spec formulas (`fit_model_spec`).  Shared backbone of the claims
about the fitter. -/
theorem fit_model_eq_spec (nv : List ℤ) (yv : List ℚ) (model : Model)
    (h1 : nv.length = yv.length) (h2 : 2 ≤ nv.length) :
    fit_model nv yv model = .ok (fit_model_spec nv yv model) := by
  have hxlen : (nv.map (fun n : ℤ => model.f (n : ℚ))).length = yv.length := by
    rw [List.length_map]
    exact h1
  have hne2 : ¬ (nv.map (fun n : ℤ => model.f (n : ℚ))).length ≠ yv.length := by
    rw [List.length_map]
    omega
  have hlt2 : ¬ (nv.map (fun n : ℤ => model.f (n : ℚ))).length < 2 := by
    rw [List.length_map]
    omega
  unfold fit_model fit_model_spec _ols_fit_affine _r2_and_rmse
  rw [if_neg (by omega : ¬ nv.length ≠ yv.length),
    if_neg (by omega : ¬ nv.length < 2)]
  dsimp only
  rw [if_neg hne2, if_neg hlt2]
  simp only [List.length_map]
  simp only [sum_sq_fst_zip _ _ hxlen, sum_sq_snd_zip _ _ hxlen]
  by_cases hs : |(((nv.map (fun n : ℤ => model.f (n : ℚ))).map
      (fun x => (x - (nv.map (fun n : ℤ => model.f (n : ℚ))).sum / (nv.length : ℚ))
        * (x - (nv.map (fun n : ℤ => model.f (n : ℚ))).sum / (nv.length : ℚ)))).sum)|
      < 1/10^30
  · simp only [if_pos hs]
  · simp only [if_neg hs]

/-- C1: on every pair of equal-length sequences of at least 2 points and
for every model, `fit_model` returns exactly the ordinary-least-squares
result described by the spec: slope `Sxy/Sxx` and intercept `ȳ − a·x̄` over
the transformed feature (with the `a = 0`, `b = ȳ` fallback when `|Sxx|`
is below epsilon), the guarded R², and an rmse whose square (radicand) is
`ss_res/n`. -/
theorem claim_C1 (nv : List ℤ) (yv : List ℚ) (model : Model)
    (h1 : nv.length = yv.length) (h2 : 2 ≤ nv.length) :
    fit_model nv yv model = .ok (fit_model_spec nv yv model) :=
  fit_model_eq_spec nv yv model h1 h2

/-- Witness for C1: the identity-feature model over the two points
(1, 1), (2, 2). -/
theorem claim_C1_witness :
    ([1, 2] : List ℤ).length = ([1, 2] : List ℚ).length ∧
    2 ≤ ([1, 2] : List ℤ).length ∧
    fit_model [1, 2] [1, 2] ⟨"n", f_n⟩
      = .ok (fit_model_spec [1, 2] [1, 2] ⟨"n", f_n⟩) := by
  exact ⟨rfl, by norm_num, claim_C1 [1, 2] [1, 2] ⟨"n", f_n⟩ rfl (by norm_num)⟩

/-- Counterexample to C9: a model whose basis values at the two points
differ, but by so little that `Sxx` falls below the `1e-30` guard.  The
fitter then falls back to the constant fit and R² comes out 0, not 1. -/
theorem claim_C9_counterexample :
    (fun x : ℚ => x / 10^16) ((1 : ℤ) : ℚ) ≠ (fun x : ℚ => x / 10^16) ((2 : ℤ) : ℚ) ∧
    ∃ fr, fit_model [1, 2] [0, 1] ⟨"tiny", fun x => x / 10^16⟩ = .ok fr ∧
      fr.r2 = 0 ∧ fr.r2 ≠ 1 := by
  have hr2 : (fit_model_spec [1, 2] [0, 1] ⟨"tiny", fun x => x / 10^16⟩).r2 = 0 := by
    simp only [fit_model_spec]
    norm_num [abs_of_pos]
  refine ⟨by norm_num, fit_model_spec [1, 2] [0, 1] ⟨"tiny", fun x => x / 10^16⟩,
    fit_model_eq_spec [1, 2] [0, 1] ⟨"tiny", fun x => x / 10^16⟩ rfl (by norm_num),
    hr2, ?_⟩
  rw [hr2]
  norm_num

/-- The guarded R² definition evaluates to 1 whenever the residual sum is
exactly zero, whatever the total sum of squares is. -/
theorem r2_guard_eq_one (R T : ℚ) (hR : R = 0) :
    (if |T| < 1/10^30 then (if R < 1/10^30 then (1:ℚ) else 0) else 1 - R / T)
      = 1 := by
  subst hR
  split
  · norm_num
  · norm_num

/-- C9, amended: with exactly 2 points, `fit_all_models` never raises, and
every model whose `Sxx` over the two transformed features clears the
`1e-30` degeneracy guard (rather than merely having distinct basis values)
fits with R² = 1. -/
theorem claim_C9_amended (ms : List Model) (n1 n2 : ℤ) (y1 y2 : ℚ)
    (m : Model) :
    (∃ rs, fit_all_models [n1, n2] [y1, y2] ms = .ok rs) ∧
    (1/10^30 ≤
        |(m.f (n1:ℚ) - (m.f (n1:ℚ) + m.f (n2:ℚ)) / 2)
            * (m.f (n1:ℚ) - (m.f (n1:ℚ) + m.f (n2:ℚ)) / 2)
          + (m.f (n2:ℚ) - (m.f (n1:ℚ) + m.f (n2:ℚ)) / 2)
            * (m.f (n2:ℚ) - (m.f (n1:ℚ) + m.f (n2:ℚ)) / 2)| →
      ∃ fr, fit_model [n1, n2] [y1, y2] m = .ok fr ∧ fr.r2 = 1) := by
  constructor
  · obtain ⟨bs, hbs, _⟩ := mapM_ok (fit_model [n1, n2] [y1, y2])
      (fun fr => fr.model) ms
      (fun mm _ => by
        obtain ⟨fr, hfr, hm⟩ := fit_model_ok [n1, n2] [y1, y2] mm rfl
          (by norm_num)
        exact ⟨fr, hfr, hm⟩)
    refine ⟨(bs.mergeSort leFirstSortKey).mergeSort leSecondSortKey, ?_⟩
    unfold fit_all_models
    rw [hbs]
  · intro hsxx
    refine ⟨fit_model_spec [n1, n2] [y1, y2] m,
      fit_model_eq_spec [n1, n2] [y1, y2] m rfl (by norm_num), ?_⟩
    simp only [fit_model_spec]
    simp only [List.map_cons, List.map_nil, List.zip_cons_cons,
      List.zip_nil_right, List.sum_cons, List.sum_nil, List.length_cons,
      List.length_nil, add_zero]
    simp only [show ((0 + 1 + 1 : ℕ) : ℚ) = 2 from by norm_num]
    set x1 := m.f (n1 : ℚ) with hx1
    set x2 := m.f (n2 : ℚ) with hx2
    simp only [if_neg (not_lt.mpr hsxx)]
    have hSne : (x1 - (x1 + x2) / 2) * (x1 - (x1 + x2) / 2)
        + (x2 - (x1 + x2) / 2) * (x2 - (x1 + x2) / 2) ≠ 0 := by
      intro h
      rw [h] at hsxx
      norm_num at hsxx
    refine r2_guard_eq_one _ _ ?_
    rw [show (x1 - (x1 + x2) / 2) * (x1 - (x1 + x2) / 2)
        + (x2 - (x1 + x2) / 2) * (x2 - (x1 + x2) / 2)
        = (x1 - x2) * (x1 - x2) / 2 from by ring] at hSne ⊢
    rw [show (x1 - (x1 + x2) / 2) * (y1 - (y1 + y2) / 2)
        + (x2 - (x1 + x2) / 2) * (y2 - (y1 + y2) / 2)
        = (x1 - x2) * (y1 - y2) / 2 from by ring]
    have hx12 : x1 - x2 ≠ 0 := by
      intro h
      apply hSne
      rw [h]
      norm_num
    field_simp
    ring

/-- Witness for the amended C9: the identity-feature model at sizes 1 and
2 (where `Sxx = 1/2` clears the guard) fits the points (1, 3), (2, 5) with
R² = 1, and the one-model catalog raises nothing. -/
theorem claim_C9_amended_witness :
    (1/10^30 ≤
        |(f_n ((1:ℤ):ℚ) - (f_n ((1:ℤ):ℚ) + f_n ((2:ℤ):ℚ)) / 2)
            * (f_n ((1:ℤ):ℚ) - (f_n ((1:ℤ):ℚ) + f_n ((2:ℤ):ℚ)) / 2)
          + (f_n ((2:ℤ):ℚ) - (f_n ((1:ℤ):ℚ) + f_n ((2:ℤ):ℚ)) / 2)
            * (f_n ((2:ℤ):ℚ) - (f_n ((1:ℤ):ℚ) + f_n ((2:ℤ):ℚ)) / 2)|) ∧
    (∃ rs, fit_all_models [1, 2] [3, 5] [⟨"n", f_n⟩] = .ok rs) ∧
    (∃ fr, fit_model [1, 2] [3, 5] ⟨"n", f_n⟩ = .ok fr ∧ fr.r2 = 1) := by
  have h := claim_C9_amended [⟨"n", f_n⟩] 1 2 3 5 ⟨"n", f_n⟩
  have hsxx : 1/10^30 ≤
      |(f_n ((1:ℤ):ℚ) - (f_n ((1:ℤ):ℚ) + f_n ((2:ℤ):ℚ)) / 2)
          * (f_n ((1:ℤ):ℚ) - (f_n ((1:ℤ):ℚ) + f_n ((2:ℤ):ℚ)) / 2)
        + (f_n ((2:ℤ):ℚ) - (f_n ((1:ℤ):ℚ) + f_n ((2:ℤ):ℚ)) / 2)
          * (f_n ((2:ℤ):ℚ) - (f_n ((1:ℤ):ℚ) + f_n ((2:ℤ):ℚ)) / 2)| := by
    norm_num [f_n, abs_of_pos]
  exact ⟨hsxx, h.1, h.2 hsxx⟩

/-- The authoritative sort comparison is transitive. -/
theorem leSecondSortKey_trans (a b c : FitResult)
    (hab : leSecondSortKey a b = true) (hbc : leSecondSortKey b c = true) :
    leSecondSortKey a c = true := by
  simp only [leSecondSortKey, decide_eq_true_iff] at *
  rcases hab with h1 | ⟨h1, h1a⟩ <;> rcases hbc with h2 | ⟨h2, h2a⟩
  · left
    exact lt_trans h1 h2
  · left
    rw [← h2]
    exact h1
  · left
    rw [h1]
    exact h2
  · right
    exact ⟨h1.trans h2, le_trans h1a h2a⟩

/-- The authoritative sort comparison is total. -/
theorem leSecondSortKey_total (a b : FitResult) :
    (leSecondSortKey a b || leSecondSortKey b a) = true := by
  simp only [leSecondSortKey, Bool.or_eq_true, decide_eq_true_iff]
  rcases lt_trichotomy (-a.r2) (-b.r2) with h | h | h
  · exact Or.inl (Or.inl h)
  · rcases le_total a.rmseSq b.rmseSq with hr | hr
    · exact Or.inl (Or.inr ⟨h, hr⟩)
    · exact Or.inr (Or.inr ⟨h.symm, hr⟩)
  · exact Or.inr (Or.inl h)

/-- C2: on valid input, `fit_all_models` returns one result per model
(the multiset of tagged models is exactly the input catalog), ordered by
R² descending with rmse ascending as tie-break, and `best_model` returns
exactly the first element of that ordered list. -/
theorem claim_C2 (nv : List ℤ) (yv : List ℚ) (models : List Model)
    (h1 : nv.length = yv.length) (h2 : 2 ≤ nv.length) :
    ∃ rs, fit_all_models nv yv models = .ok rs ∧
      (rs.map (fun r => r.model)).Perm models ∧
      (∀ i j : Fin rs.length, i < j →
        (rs.get j).r2 < (rs.get i).r2 ∨
        ((rs.get i).r2 = (rs.get j).r2 ∧
          Real.sqrt ((rs.get i).rmseSq : ℝ)
            ≤ Real.sqrt ((rs.get j).rmseSq : ℝ))) ∧
      (∀ h : rs ≠ [], best_model nv yv models = .ok (rs.head h)) := by
  obtain ⟨bs, hbs, hmap⟩ := mapM_ok (fit_model nv yv) (fun fr => fr.model)
    models (fun m _ => fit_model_ok nv yv m h1 h2)
  have hfa : fit_all_models nv yv models
      = .ok ((bs.mergeSort leFirstSortKey).mergeSort leSecondSortKey) := by
    unfold fit_all_models
    rw [hbs]
  refine ⟨(bs.mergeSort leFirstSortKey).mergeSort leSecondSortKey, hfa,
    ?_, ?_, ?_⟩
  · have p1 : ((bs.mergeSort leFirstSortKey).mergeSort leSecondSortKey).Perm
        bs := (List.mergeSort_perm _ _).trans (List.mergeSort_perm _ _)
    have p2 := p1.map (fun r : FitResult => r.model)
    rw [hmap] at p2
    exact p2
  · intro i j hij
    have hp := List.sorted_mergeSort
      (fun a b c hab hbc => leSecondSortKey_trans a b c hab hbc)
      (fun a b => leSecondSortKey_total a b)
      (bs.mergeSort leFirstSortKey)
    have hrel := of_decide_eq_true ((List.pairwise_iff_get.mp hp) i j hij)
    rcases hrel with h | ⟨he, hle⟩
    · exact Or.inl (neg_lt_neg_iff.mp h)
    · refine Or.inr ⟨neg_inj.mp he, Real.sqrt_le_sqrt (by exact_mod_cast hle)⟩
  · intro hne
    obtain ⟨r, rest, hcons⟩ := List.exists_cons_of_ne_nil hne
    rw [hcons] at hfa
    simp only [hcons, List.head_cons]
    unfold best_model
    rw [hfa]

/-- Witness for C2: the two-model catalog {"1", "n"} over the points
(1, 1), (2, 2). -/
theorem claim_C2_witness :
    ([1, 2] : List ℤ).length = ([1, 2] : List ℚ).length ∧
    2 ≤ ([1, 2] : List ℤ).length ∧
    (∃ rs, fit_all_models [1, 2] [1, 2] [⟨"1", f_const⟩, ⟨"n", f_n⟩]
        = .ok rs ∧
      (rs.map (fun r => r.model)).Perm [⟨"1", f_const⟩, ⟨"n", f_n⟩] ∧
      (∀ i j : Fin rs.length, i < j →
        (rs.get j).r2 < (rs.get i).r2 ∨
        ((rs.get i).r2 = (rs.get j).r2 ∧
          Real.sqrt ((rs.get i).rmseSq : ℝ)
            ≤ Real.sqrt ((rs.get j).rmseSq : ℝ))) ∧
      (∀ h : rs ≠ [],
        best_model [1, 2] [1, 2] [⟨"1", f_const⟩, ⟨"n", f_n⟩]
          = .ok (rs.head h))) :=
  ⟨rfl, by norm_num,
    claim_C2 [1, 2] [1, 2] [⟨"1", f_const⟩, ⟨"n", f_n⟩] rfl (by norm_num)⟩

/-- Witness for C5: two sizes through constant timing oracles. -/
theorem claim_C5_witness :
    (benchmark_series (fun _ _ => 1) (fun _ _ => 3) [4, 9] {}).length = 2 ∧
    (benchmark_series (fun _ _ => 1) (fun _ _ => 3) [4, 9] {}).map
      (fun r => r.n) = [4, 9] :=
  claim_C5 (fun _ _ => 1) (fun _ _ => 3) [4, 9] {}

/-- Witness for C6: a valid two-point input fits without error. -/
theorem claim_C6_witness :
    ∃ fr, fit_model [1, 2] [2, 3] ⟨"1", f_const⟩ = .ok fr :=
  (claim_C6 [1, 2] [2, 3] ⟨"1", f_const⟩).mpr ⟨rfl, by norm_num⟩
